import Mathlib

/-!
Verification of the billing subsystem of the IBP GeoDNS collator.

The Go sources are shallowly embedded here:
* `float64` quantities (costs, hours, percentages) are modelled as `ℚ`;
* `time.Time` values inside the SLA downtime computation are modelled as
  rational hours on a single absolute axis;
* Go maps are modelled as association lists (`List (String × α)`) with
  lookup/overwrite helpers mirroring Go map reads and writes;
* database queries are modelled as functions returning `Except String _`
  (an `error` result models a failed `sql.Query`).
-/

namespace Collator

/-! ### Association-list helpers (Go map operations) -/

/-- Lookup in an association list; `none` models a missing Go map key. -/
def alookup {α : Type} : List (String × α) → String → Option α
  | [], _ => none
  | (k', v) :: rest, k => if k' = k then some v else alookup rest k

/-- Write to an association list; overwrites an existing binding in place,
otherwise appends, mirroring a Go map assignment `m[k] = v`. -/
def aset {α : Type} : List (String × α) → String → α → List (String × α)
  | [], k, v => [(k, v)]
  | (k', v') :: rest, k, v =>
    if k' = k then (k, v) :: rest else (k', v') :: aset rest k v

/-- Go `m[k] += v` on a `map[string]float64`: a missing key reads as `0`. -/
def bump : List (String × ℚ) → String → ℚ → List (String × ℚ)
  | [], k, v => [(k, v)]
  | (k', v') :: rest, k, v =>
    if k' = k then (k', v' + v) :: rest else (k', v') :: bump rest k v

/-! ### Downtime periods and merge (src/src/billing/sla.go) -/

/-- Structure `downtimePeriod` from sla.go.  The Go field `end` is called `stop`
because `end` is a reserved word in Lean; timestamps are rational hours. -/
structure downtimePeriod where
  start : ℚ
  stop : ℚ
deriving DecidableEq, Repr

/-- One step of the inner `j` loop of the exchange sort in
`mergeOverlappingPeriods`: given the current pivot `periods[i]` and the tail
`periods[i+1..]`, perform every conditional swap and return the final pivot
together with the rewritten tail. -/
def innerPass (x : downtimePeriod) :
    List downtimePeriod → downtimePeriod × List downtimePeriod
  | [] => (x, [])
  | y :: ys =>
    if y.start < x.start then
      let r := innerPass y ys
      (r.1, x :: r.2)
    else
      let r := innerPass x ys
      (r.1, y :: r.2)

/-- The outer `i` loop of the exchange sort, indexed by the remaining number
of iterations (the Go loop runs once per index). -/
def exchSortAux : Nat → List downtimePeriod → List downtimePeriod
  | 0, ps => ps
  | _, [] => []
  | n + 1, x :: xs =>
    let r := innerPass x xs
    r.1 :: exchSortAux n r.2

/-- The in-place exchange sort by `start` used at the top of
`mergeOverlappingPeriods` (the double `for` loop with conditional swaps). -/
def exchSort (ps : List downtimePeriod) : List downtimePeriod :=
  exchSortAux ps.length ps

/-- The merging loop of `mergeOverlappingPeriods`: `cur` is the (mutable)
last element of `merged`; a period whose start is `≤ cur.stop` extends
`cur.stop` to the maximum of the two ends, otherwise `cur` is frozen and a
new current interval starts. -/
def mergeGo (cur : downtimePeriod) : List downtimePeriod → List downtimePeriod
  | [] => [cur]
  | p :: ps =>
    if p.start ≤ cur.stop then
      mergeGo { cur with stop := if cur.stop < p.stop then p.stop else cur.stop } ps
    else
      cur :: mergeGo p ps

/-- Function `mergeOverlappingPeriods` from sla.go: lists of length ≤ 1 are returned
unchanged; otherwise the list is exchange-sorted by start and folded. -/
def mergeOverlappingPeriods (periods : List downtimePeriod) : List downtimePeriod :=
  if periods.length ≤ 1 then periods
  else
    match exchSort periods with
    | [] => []
    | p :: rest => mergeGo p rest

/-- Total hours of a list of periods: the final summation loop of
`calculateServiceDowntime` (`period.end.Sub(period.start).Hours()`). -/
def sumHours : List downtimePeriod → ℚ
  | [] => 0
  | p :: ps => (p.stop - p.start) + sumHours ps

/-! ### Member events, the event-log store, and `calculateServiceDowntime` -/

/-- One row returned by a `member_events` query: `end_time` may be NULL
(`stop = none`) for a still-open event. -/
structure memberEvent where
  start : ℚ
  stop : Option ℚ
deriving DecidableEq, Repr

/-- Clamping of an event to the month window (sla.go lines 168-178 and
236-244): the start is raised to `startTime`, the end defaults to `endTime`
and is replaced by the event end when that is present and earlier. -/
def clampToPeriod (startTime endTime : ℚ) (e : memberEvent) : downtimePeriod :=
  { start := if e.start < startTime then startTime else e.start,
    stop :=
      match e.stop with
      | some s => if s < endTime then s else endTime
      | none => endTime }

/-- Model of the event-log store.  Each query function stands for one of the
two SQL queries of `calculateServiceDowntime` (its WHERE clause included);
an `Except.error` result models `data2.DB.Query` returning an error. -/
structure DB where
  siteEvents : String → ℚ → ℚ → Except String (List memberEvent)
  serviceEvents : String → List String → ℚ → ℚ → Except String (List memberEvent)

/-- Function `calculateServiceDowntime` from sla.go.  A `none` database returns 0
hours.  A failed query is only logged in Go, so here it contributes an empty
period list; the service query is issued only when `domains` is non-empty.
The month window is the pair `startTime`, `endTime`. -/
def calculateServiceDowntime (db : Option DB) (memberName serviceName : String)
    (domains : List String) (startTime endTime : ℚ) : ℚ :=
  match db with
  | none => 0
  | some db =>
    let sitePeriods :=
      match db.siteEvents memberName startTime endTime with
      | .error _ => []
      | .ok evs => evs.map (clampToPeriod startTime endTime)
    let servicePeriods :=
      if domains = [] then []
      else
        match db.serviceEvents memberName domains startTime endTime with
        | .error _ => []
        | .ok evs => evs.map (clampToPeriod startTime endTime)
    let allPeriods := sitePeriods ++ servicePeriods
    if allPeriods = [] then 0
    else sumHours (mergeOverlappingPeriods allPeriods)

/-! ### SLA breakdown (src/src/billing/sla.go) -/

/-- Constant `DefaultSLAPercentage = 99.99` from sla.go. -/
def DefaultSLAPercentage : ℚ := 9999 / 100

/-- Structure `SLABreakdown` from sla.go. -/
structure SLABreakdown where
  HoursTotal : ℚ
  HoursDown : ℚ
  HoursUp : ℚ
  Uptime : ℚ
  SLAThreshold : ℚ
  SLAHours : ℚ
  MeetsSLA : Bool
deriving DecidableEq, Repr

/-- The per-pair breakdown computation of `CalculateSLAAdjustments`
(sla.go lines 92-113): uptime is floored at 0, the percentage defaults to
100 for an empty window, and the SLA test is an inclusive `>=`. -/
def slaBreakdownFor (totalHours slaHours downtime : ℚ) : SLABreakdown :=
  let uptime := totalHours - downtime
  let uptime := if uptime < 0 then 0 else uptime
  let uptimePercent := if 0 < totalHours then (uptime / totalHours) * 100 else 100
  { HoursTotal := totalHours
    HoursDown := downtime
    HoursUp := uptime
    Uptime := uptimePercent
    SLAThreshold := DefaultSLAPercentage
    SLAHours := slaHours
    MeetsSLA := decide (DefaultSLAPercentage ≤ uptimePercent) }

/-! ### Configuration model (ibp-geodns-libs config, as used by billing) -/

/-- Resource allocation of a service (`cfg.Resources`). -/
structure Resources where
  Nodes : Nat
  Cores : Nat
  Memory : Nat
  Disk : Nat
  Bandwidth : Nat
deriving DecidableEq, Repr

/-- Per-region price sheet (`cfg.IaasPricing`), rates modelled as `ℚ`. -/
structure IaasPricing where
  Cores : ℚ
  Memory : ℚ
  Disk : ℚ
  Bandwidth : ℚ
deriving DecidableEq, Repr

/-- The `Configuration.Active` flag of a service. -/
structure ServiceConfiguration where
  Active : Nat
deriving DecidableEq, Repr

/-- A service provider entry with its RPC URLs. -/
structure Provider where
  RpcUrls : List String
deriving DecidableEq, Repr

/-- A configured service (`cfg.Service`), with the fields billing reads. -/
structure Service where
  Configuration : ServiceConfiguration
  Resources : Resources
  Providers : List (String × Provider)
deriving DecidableEq, Repr

/-- The `Details` of a member (billing uses only the display name). -/
structure MemberDetails where
  Name : String
deriving DecidableEq, Repr

/-- The `Location` of a member (billing uses only the region). -/
structure MemberLocation where
  Region : String
deriving DecidableEq, Repr

/-- A configured member (`cfg.Member`), with the fields billing reads. -/
structure Member where
  Details : MemberDetails
  Location : MemberLocation
  ServiceAssignments : List (String × List String)
deriving DecidableEq, Repr

/-- The slice of the global configuration that billing reads. -/
structure Config where
  Members : List (String × Member)
  Services : List (String × Service)
  Pricing : List (String × IaasPricing)
deriving DecidableEq, Repr

/-! ### Billing summary and refresh (src/src/billing/pdf_member.go) -/

/-- Structure `MemberCost` from pdf_member.go. -/
structure MemberCost where
  MemberName : String
  ServiceCosts : List (String × ℚ)
  Total : ℚ
deriving DecidableEq, Repr

/-- Structure `ServiceCost` from pdf_member.go. -/
structure ServiceCost where
  ServiceName : String
  MemberCosts : List (String × ℚ)
  Total : ℚ
deriving DecidableEq, Repr

/-- Structure `Summary` from pdf_member.go (the refresh timestamp is not needed by
the cost-sum invariant and is modelled separately in the store section). -/
structure Summary where
  Members : List (String × MemberCost)
  Services : List (String × ServiceCost)
deriving DecidableEq, Repr

/-- Key normalisation used by `refresh` for its lookup indices:
`strings.ToLower(strings.TrimSpace(s))`. -/
def normKey (s : String) : String := s.trim.toLower

/-- Function `costForServiceInstance` from pdf_member.go. -/
def costForServiceInstance (res : Resources) (price : IaasPricing) : ℚ :=
  if res.Nodes = 0 then 0
  else
    let perNode := (res.Cores : ℚ) * price.Cores + (res.Memory : ℚ) * price.Memory +
      (res.Disk : ℚ) * price.Disk + (res.Bandwidth : ℚ) * price.Bandwidth
    perNode * (res.Nodes : ℚ)

/-- The zero value of the Go `ServiceCost` struct, read by
`sc := newServiceCosts[svcName]` when the key is missing. -/
def svcZero : ServiceCost := { ServiceName := "", MemberCosts := [], Total := 0 }

/-- The `newServiceCosts` update block of `refresh`: read (zero value when
missing), initialise name and member map on first sight, accumulate, store. -/
def updateServiceCost (m : List (String × ServiceCost)) (svcName memName : String)
    (cost : ℚ) : List (String × ServiceCost) :=
  let sc := (alookup m svcName).getD svcZero
  let sc :=
    if sc.ServiceName = "" then { sc with ServiceName := svcName, MemberCosts := [] }
    else sc
  let sc := { sc with MemberCosts := bump sc.MemberCosts memName cost,
                      Total := sc.Total + cost }
  aset m svcName sc

/-- Body of the innermost loop of `refresh` over one assigned service name:
unknown or inactive services are skipped, otherwise the instance cost is
added to both the member view and the service view. -/
def processAssignment (svcByName : List (String × Service)) (price : IaasPricing)
    (memName : String) (st : MemberCost × List (String × ServiceCost))
    (svcName : String) : MemberCost × List (String × ServiceCost) :=
  match alookup svcByName (normKey svcName) with
  | none => st
  | some svc =>
    if svc.Configuration.Active ≠ 1 then st
    else
      let cost := costForServiceInstance svc.Resources price
      ({ st.1 with ServiceCosts := bump st.1.ServiceCosts svcName cost,
                   Total := st.1.Total + cost },
       updateServiceCost st.2 svcName memName cost)

/-- Body of the member loop of `refresh`: members whose region has no price
sheet are skipped; a member is published only when its total is positive. -/
def processMember (svcByName : List (String × Service))
    (priceByRegion : List (String × IaasPricing))
    (acc : List (String × MemberCost) × List (String × ServiceCost))
    (entry : String × Member) :
    List (String × MemberCost) × List (String × ServiceCost) :=
  match alookup priceByRegion (normKey entry.2.Location.Region) with
  | none => acc
  | some price =>
    let st := entry.2.ServiceAssignments.foldl
      (fun st kv => kv.2.foldl (processAssignment svcByName price entry.1) st)
      ({ MemberName := entry.1, ServiceCosts := [], Total := 0 }, acc.2)
    if 0 < st.1.Total then (aset acc.1 entry.1 st.1, st.2) else (acc.1, st.2)

/-- The case-insensitive service index `svcByName` built by `refresh`. -/
def svcIndex (c : Config) : List (String × Service) :=
  c.Services.foldl (fun m kv => aset m (normKey kv.1) kv.2) []

/-- The case-insensitive pricing index `priceByRegion` built by `refresh`. -/
def priceIndex (c : Config) : List (String × IaasPricing) :=
  c.Pricing.foldl (fun m kv => aset m (normKey kv.1) kv.2) []

/-- Function `refresh` from pdf_member.go (the published snapshot; logging and the
timestamp are omitted). -/
def refresh (c : Config) : Summary :=
  let res := c.Members.foldl (processMember (svcIndex c) (priceIndex c)) ([], [])
  { Members := res.1, Services := res.2 }

/-- Sum of `MemberCost.Total` over the members map. -/
def sumMemTotals : List (String × MemberCost) → ℚ
  | [] => 0
  | kv :: rest => kv.2.Total + sumMemTotals rest

/-- Sum of `ServiceCost.Total` over the services map. -/
def sumSvcTotals : List (String × ServiceCost) → ℚ
  | [] => 0
  | kv :: rest => kv.2.Total + sumSvcTotals rest

/-- The cost contributed by one assigned service name: zero when the
service is unknown or inactive, the instance cost otherwise. -/
def assignmentCost (svcByName : List (String × Service)) (price : IaasPricing)
    (svcName : String) : ℚ :=
  match alookup svcByName (normKey svcName) with
  | none => 0
  | some svc =>
    if svc.Configuration.Active ≠ 1 then 0
    else costForServiceInstance svc.Resources price

/-- Sum of assignment costs over one list of service names. -/
def namesCost (svcByName : List (String × Service)) (price : IaasPricing) :
    List String → ℚ
  | [] => 0
  | n :: rest => assignmentCost svcByName price n + namesCost svcByName price rest

/-- Sum of assignment costs over a member's whole assignment map. -/
def memberPairCosts (svcByName : List (String × Service)) (price : IaasPricing) :
    List (String × List String) → ℚ
  | [] => 0
  | kv :: rest =>
    namesCost svcByName price kv.2 + memberPairCosts svcByName price rest

/-- All per-(member,service)-pair costs of one member: zero when the
member's region has no price sheet. -/
def memberCostOf (svcByName : List (String × Service))
    (priceByRegion : List (String × IaasPricing)) (mem : Member) : ℚ :=
  match alookup priceByRegion (normKey mem.Location.Region) with
  | none => 0
  | some price => memberPairCosts svcByName price mem.ServiceAssignments

/-- Sum of all per-(member,service)-pair costs over the member list. -/
def allPairCostsAux (svcByName : List (String × Service))
    (priceByRegion : List (String × IaasPricing)) : List (String × Member) → ℚ
  | [] => 0
  | kv :: rest =>
    memberCostOf svcByName priceByRegion kv.2 +
      allPairCostsAux svcByName priceByRegion rest

/-- Sum of all per-(member,service)-pair costs that a refresh processes. -/
def allPairCosts (c : Config) : ℚ :=
  allPairCostsAux (svcIndex c) (priceIndex c) c.Members

/-! ### `CalculateSLAAdjustments` (src/src/billing/sla.go) -/

/-- Strip one protocol marker from the front of a URL
(`strings.TrimPrefix`). -/
def trimProto (p s : String) : String :=
  if p.isPrefixOf s then s.drop p.length else s

/-- Function `extractDomainFromURL` from sla.go: drop the protocol, cut at the first
`/` and the first `:`, lowercase. -/
def extractDomainFromURL (rpcUrl : String) : String :=
  let url := trimProto "wss://" rpcUrl
  let url := trimProto "ws://" url
  let url := trimProto "https://" url
  let url := trimProto "http://" url
  let url := url.takeWhile (fun c => c ≠ '/')
  let url := url.takeWhile (fun c => c ≠ ':')
  url.toLower

/-- The `serviceToDomains` table built by `CalculateSLAAdjustments`: all
non-empty domains extracted from a service's providers' RPC URLs. -/
def domainsOfService (svc : Service) : List String :=
  (svc.Providers.foldl (fun acc kv => acc ++ kv.2.RpcUrls) []).map
    extractDomainFromURL |>.filter (fun d => d ≠ "")

/-- The `memberIDToDBName` table: a member maps to its `Details.Name`
unless that is empty, in which case it maps to its ID. -/
def dbNameOf (c : Config) (memberID : String) : String :=
  match alookup c.Members memberID with
  | some mem => if mem.Details.Name ≠ "" then mem.Details.Name else memberID
  | none => ""

/-- The member → service → breakdown table (`SLASummary`). -/
abbrev SLASummaryL := List (String × List (String × SLABreakdown))

/-- Function `CalculateSLAAdjustments` from sla.go.  The month window is passed as
`startTime`/`endTime` (in Go they are derived from the month value); with a
`none` database the function fails with "database not initialized",
otherwise it evaluates every (member, service) pair of the summary. -/
def CalculateSLAAdjustments (db : Option DB) (c : Config)
    (startTime endTime : ℚ) (sum : Summary) : Except String SLASummaryL :=
  match db with
  | none => .error "database not initialized"
  | some db =>
    let totalHours := endTime - startTime
    let slaHours := totalHours * (DefaultSLAPercentage / 100)
    .ok (sum.Members.map (fun mkv =>
      (mkv.1, mkv.2.ServiceCosts.map (fun skv =>
        let domains :=
          match alookup c.Services skv.1 with
          | some svc => domainsOfService svc
          | none => []
        let downtime := calculateServiceDowntime (some db) (dbNameOf c mkv.1)
          skv.1 domains startTime endTime
        (skv.1, slaBreakdownFor totalHours slaHours downtime)))))

/-! ### `getSLABreakdown` (src/unnamed/part_001 and part_005) -/

/-- The default breakdown returned for a pair that is absent from the SLA
summary: 730 hours, no downtime, 100% uptime, SLA met.  The two Go copies
(report generation and billing API) are character-for-character the same. -/
def defaultSLABreakdown : SLABreakdown :=
  { HoursTotal := 730
    HoursDown := 0
    HoursUp := 730
    Uptime := 100
    SLAThreshold := DefaultSLAPercentage
    SLAHours := 730 * (DefaultSLAPercentage / 100)
    MeetsSLA := true }

/-- Function `getSLABreakdown`: the stored breakdown when the pair is present, the
default otherwise. -/
def getSLABreakdown (sla : SLASummaryL) (member service : String) : SLABreakdown :=
  match alookup sla member with
  | some upm =>
    match alookup upm service with
    | some bd => bd
    | none => defaultSLABreakdown
  | none => defaultSLABreakdown

/-! ### Monthly generation dedup state (src/src/billing/pdf_member.go) -/

/-- The two package-level variables guarded by `billingGenMutex`.  Months
are numbered by `Nat` (order is all the code uses); the zero value of
`lastGeneratedBillingMonth` is 0. -/
structure GenState where
  lastGeneratedBillingMonth : Nat
  billingGenerationInProgress : Bool
deriving DecidableEq, Repr

/-- Success and failure of each effect a generation run performs. -/
structure GenEnv where
  tmpDirOk : Bool
  mkdirOk : Bool
  overviewOk : Bool
  memberResults : List (String × Bool)
deriving DecidableEq, Repr

/-- The first critical section of `generateMonthlyBillingPDF` (lines
1253-1266): under the mutex, no-op when the month is already recorded or a
run is in progress, otherwise raise the in-progress flag.  The returned
flag says whether the generation body runs. -/
def doBegin (st : GenState) (m : Nat) : GenState × Bool :=
  if m ≤ st.lastGeneratedBillingMonth then (st, false)
  else if st.billingGenerationInProgress then (st, false)
  else ({ st with billingGenerationInProgress := true }, true)

/-- Whether a generation body succeeds: the temp directory must be
configured, the month directory created, the overview PDF written and every
member PDF written (`hadError` stays false). -/
def genBody (env : GenEnv) : Bool :=
  env.tmpDirOk && env.mkdirOk && env.overviewOk &&
    env.memberResults.all (fun r => r.2)

/-- The deferred second critical section (lines 1269-1276): clear the
in-progress flag and record the month only on success. -/
def doFinish (st : GenState) (m : Nat) (success : Bool) : GenState :=
  { billingGenerationInProgress := false
    lastGeneratedBillingMonth :=
      if success ∧ st.lastGeneratedBillingMonth < m then m
      else st.lastGeneratedBillingMonth }

/-- One single-threaded run of `generateMonthlyBillingPDF` for target month
`m`.  Result: final state, whether the body ran, whether it succeeded. -/
def generateMonthlyBillingPDF (st : GenState) (m : Nat) (env : GenEnv) :
    GenState × Bool × Bool :=
  let r := doBegin st m
  if r.2 then
    let success := genBody env
    (doFinish r.1 m success, true, success)
  else (r.1, false, false)

/-! ### Two concurrent triggers (claim C4)

The mutex serialises the two critical sections, so a concurrent execution
of two triggers is an interleaving of four atomic actions: each thread
performs `doBegin` and then, only if it proceeded, `doFinish`. -/

/-- Control state of one trigger thread: program counter (0 = before its
begin section, 1 = inside the body, 2 = finished) and whether its begin
section let it proceed. -/
structure ThreadCtl where
  pc : Nat
  proceeded : Bool
deriving DecidableEq, Repr

/-- A system of the shared generation state and two trigger threads. -/
structure Sys where
  gen : GenState
  tA : ThreadCtl
  tB : ThreadCtl
deriving DecidableEq, Repr

/-- One atomic step of a trigger thread for target month `m` whose body,
if it runs, succeeds iff `success`. -/
def stepThread (m : Nat) (success : Bool) (st : GenState) (t : ThreadCtl) :
    GenState × ThreadCtl :=
  match t.pc with
  | 0 =>
    let r := doBegin st m
    (r.1, { pc := if r.2 then 1 else 2, proceeded := r.2 })
  | 1 => (doFinish st m success, { t with pc := 2 })
  | _ => (st, t)

/-- Run a schedule: `true` steps thread A, `false` steps thread B. -/
def runSched (m : Nat) (sA sB : Bool) : List Bool → Sys → Sys
  | [], s => s
  | c :: rest, s =>
    if c then
      let r := stepThread m sA s.gen s.tA
      runSched m sA sB rest { s with gen := r.1, tA := r.2 }
    else
      let r := stepThread m sB s.gen s.tB
      runSched m sA sB rest { s with gen := r.1, tB := r.2 }

/-! ### The summary store, deep copy and publish (claim C7)

`GetSummary` copies the two-level maps of the store.  To state independence
of the copy, map values are allocated in an explicit heap of inner
`map[string]float64` cells and the structs hold references (indices) into
it; `GetSummary` allocates fresh cells for every inner map it copies. -/

/-- A heap of inner `map[string]float64` cells. -/
abbrev CellHeap := List (List (String × ℚ))

/-- Read a heap cell. -/
def heapGet (h : CellHeap) (r : Nat) : List (String × ℚ) := h.getD r []

/-- Mutate a heap cell in place. -/
def heapSet (h : CellHeap) (r : Nat) (v : List (String × ℚ)) : CellHeap :=
  h.set r v

/-- Variant `MemberCost` with its `ServiceCosts` map as a heap reference. -/
structure MemberCostRef where
  MemberName : String
  ServiceCosts : Nat
  Total : ℚ
deriving DecidableEq, Repr

/-- Variant `ServiceCost` with its `MemberCosts` map as a heap reference. -/
structure ServiceCostRef where
  ServiceName : String
  MemberCosts : Nat
  Total : ℚ
deriving DecidableEq, Repr

/-- The `billingStore` snapshot: members, services, refresh timestamp. -/
structure StoreSummary where
  Members : List (String × MemberCostRef)
  Services : List (String × ServiceCostRef)
  Refresh : Nat
deriving DecidableEq, Repr

/-- The member-copy loop of `GetSummary`: for each member a fresh heap cell
is allocated holding a copy of the member's `ServiceCosts` cell. -/
def copyMembers : CellHeap → List (String × MemberCostRef) →
    CellHeap × List (String × MemberCostRef)
  | h, [] => (h, [])
  | h, (k, v) :: rest =>
    let h₁ := h ++ [heapGet h v.ServiceCosts]
    let res := copyMembers h₁ rest
    (res.1,
     (k, { MemberName := v.MemberName, ServiceCosts := h.length, Total := v.Total })
       :: res.2)

/-- The service-copy loop of `GetSummary`. -/
def copyServices : CellHeap → List (String × ServiceCostRef) →
    CellHeap × List (String × ServiceCostRef)
  | h, [] => (h, [])
  | h, (k, v) :: rest =>
    let h₁ := h ++ [heapGet h v.MemberCosts]
    let res := copyServices h₁ rest
    (res.1,
     (k, { ServiceName := v.ServiceName, MemberCosts := h.length, Total := v.Total })
       :: res.2)

/-- Function `GetSummary` from pdf_member.go: deep-copy of the current snapshot
under the read lock, returning the grown heap and the copy. -/
def GetSummary (h : CellHeap) (st : StoreSummary) : CellHeap × StoreSummary :=
  let rm := copyMembers h st.Members
  let rs := copyServices rm.1 st.Services
  (rs.1, { Members := rm.2, Services := rs.2, Refresh := st.Refresh })

/-- The heap references reachable from a snapshot. -/
def summaryRefs (s : StoreSummary) : List Nat :=
  s.Members.map (fun kv => kv.2.ServiceCosts) ++
    s.Services.map (fun kv => kv.2.MemberCosts)

/-- The publication step of `refresh` (lines 1213-1218): under the write
lock the whole {Members, Services, Refresh} triple is replaced as a unit. -/
def publishStore (_old : StoreSummary) (members : List (String × MemberCostRef))
    (services : List (String × ServiceCostRef)) (ts : Nat) : StoreSummary :=
  { Members := members, Services := services, Refresh := ts }

/-! ### Concrete instances used by examples, witnesses and counterexamples -/

/-- A member assigned the single service "s1" in region "r". -/
def memA : Member :=
  { Details := ⟨"M1"⟩, Location := ⟨"r"⟩, ServiceAssignments := [("rpc", ["s1"])] }

/-- An active service with one node and one core. -/
def svcA : Service :=
  { Configuration := ⟨1⟩, Resources := ⟨1, 1, 0, 0, 0⟩, Providers := [] }

/-- A configuration whose only price sheet carries a negative per-core
rate.  The single member's one pair cost is then -1. -/
def cNeg : Config :=
  { Members := [("m1", memA)], Services := [("s1", svcA)],
    Pricing := [("r", ⟨-1, 0, 0, 0⟩)] }

/-- The same configuration with a nonnegative price sheet. -/
def cPos : Config :=
  { Members := [("m1", memA)], Services := [("s1", svcA)],
    Pricing := [("r", ⟨2, 1, 0, 0⟩)] }

/-- An event-log store both of whose queries fail. -/
def dbFail : DB :=
  { siteEvents := fun _ _ _ => .error "db down",
    serviceEvents := fun _ _ _ _ => .error "db down" }

/-- A cost summary with one member and one service pair. -/
def sum9 : Summary :=
  { Members := [("m1", { MemberName := "m1", ServiceCosts := [("svc", 5)], Total := 5 })],
    Services := [] }

/-- A configuration for the SLA counterexample: one member, no services. -/
def c9cfg : Config :=
  { Members := [("m1", { Details := ⟨"M1"⟩, Location := ⟨"r"⟩, ServiceAssignments := [] })],
    Services := [], Pricing := [] }

/-- An event-log store answering the site query with the two events of the
worked downtime example and failing the (unused) service query. -/
def dbEx : DB :=
  { siteEvents := fun _ _ _ => .ok [⟨10, some 11⟩, ⟨21/2, some 12⟩],
    serviceEvents := fun _ _ _ _ => .error "unused" }

/-- Nonnegativity of every rate of a price sheet. -/
def PriceNonneg (p : IaasPricing) : Prop :=
  0 ≤ p.Cores ∧ 0 ≤ p.Memory ∧ 0 ≤ p.Disk ∧ 0 ≤ p.Bandwidth

/-- A (member, service) pair absent from an SLA summary: either the member
is missing, or its service map lacks the service. -/
def pairAbsent (sla : SLASummaryL) (member service : String) : Prop :=
  ∀ upm, alookup sla member = some upm → alookup upm service = none

/-- An environment whose overview PDF write fails. -/
def env0 : GenEnv :=
  { tmpDirOk := true, mkdirOk := true, overviewOk := false,
    memberResults := [("m1", true)] }

/-- Two concurrent triggers for month `m` from last-done month `L`, both of
whose bodies would succeed, run under schedule `σ`. -/
def runTwo (L m : Nat) (σ : List Bool) : Sys :=
  runSched m true true σ ⟨⟨L, false⟩, ⟨0, false⟩, ⟨0, false⟩⟩

/-- The observable content of a members map under a heap: every entry with
its key, name, total, and the inner map its reference points at. -/
def readMembers (h : CellHeap) (l : List (String × MemberCostRef)) :
    List (String × String × ℚ × List (String × ℚ)) :=
  l.map (fun kv => (kv.1, kv.2.MemberName, kv.2.Total, heapGet h kv.2.ServiceCosts))

/-- The observable content of a services map under a heap. -/
def readServices (h : CellHeap) (l : List (String × ServiceCostRef)) :
    List (String × String × ℚ × List (String × ℚ)) :=
  l.map (fun kv => (kv.1, kv.2.ServiceName, kv.2.Total, heapGet h kv.2.MemberCosts))

/-- A two-cell heap for the deep-copy witness. -/
def h0 : CellHeap := [[("s1", 5)], [("m1", 5)]]

/-- A store snapshot whose member and service each point at one heap cell. -/
def st0 : StoreSummary :=
  { Members := [("m1", { MemberName := "M1", ServiceCosts := 0, Total := 5 })],
    Services := [("s1", { ServiceName := "s1", MemberCosts := 1, Total := 5 })],
    Refresh := 7 }

/-! ## Lemmas about the exchange sort and the merge -/

/-- Sortedness relation used by the merge: nondecreasing starts. -/
def startLE (a b : downtimePeriod) : Prop := a.start ≤ b.start

/-- Gap relation of a merged list: each interval ends strictly before the
next begins. -/
def gapLT (a b : downtimePeriod) : Prop := a.stop < b.start

theorem innerPass_min (ys : List downtimePeriod) : ∀ x : downtimePeriod,
    (innerPass x ys).1.start ≤ x.start ∧
      ∀ y ∈ (innerPass x ys).2, (innerPass x ys).1.start ≤ y.start := by
  induction ys with
  | nil => intro x; simp [innerPass]
  | cons y ys ih =>
    intro x
    by_cases h : y.start < x.start
    · have hx := ih y
      simp only [innerPass, if_pos h]
      refine ⟨le_of_lt (lt_of_le_of_lt hx.1 h), ?_⟩
      intro z hz
      rcases List.mem_cons.mp hz with rfl | hz
      · exact le_of_lt (lt_of_le_of_lt hx.1 h)
      · exact hx.2 z hz
    · have hx := ih x
      simp only [innerPass, if_neg h]
      refine ⟨hx.1, ?_⟩
      intro z hz
      rcases List.mem_cons.mp hz with rfl | hz
      · exact le_trans hx.1 (le_of_not_lt h)
      · exact hx.2 z hz

theorem innerPass_mem (ys : List downtimePeriod) : ∀ x : downtimePeriod,
    (innerPass x ys).1 ∈ x :: ys ∧ ∀ z ∈ (innerPass x ys).2, z ∈ x :: ys := by
  induction ys with
  | nil => intro x; simp [innerPass]
  | cons y ys ih =>
    intro x
    by_cases h : y.start < x.start
    · have hy := ih y
      simp only [innerPass, if_pos h]
      constructor
      · rcases List.mem_cons.mp hy.1 with h1 | h1
        · exact List.mem_cons.mpr (Or.inr (List.mem_cons.mpr (Or.inl h1)))
        · exact List.mem_cons.mpr (Or.inr (List.mem_cons.mpr (Or.inr h1)))
      · intro z hz
        rcases List.mem_cons.mp hz with rfl | hz
        · exact List.mem_cons.mpr (Or.inl rfl)
        · rcases List.mem_cons.mp (hy.2 z hz) with h1 | h1
          · exact List.mem_cons.mpr (Or.inr (List.mem_cons.mpr (Or.inl h1)))
          · exact List.mem_cons.mpr (Or.inr (List.mem_cons.mpr (Or.inr h1)))
    · have hx := ih x
      simp only [innerPass, if_neg h]
      constructor
      · rcases List.mem_cons.mp hx.1 with h1 | h1
        · exact List.mem_cons.mpr (Or.inl h1)
        · exact List.mem_cons.mpr (Or.inr (List.mem_cons.mpr (Or.inr h1)))
      · intro z hz
        rcases List.mem_cons.mp hz with rfl | hz
        · exact List.mem_cons.mpr (Or.inr (List.mem_cons.mpr (Or.inl rfl)))
        · rcases List.mem_cons.mp (hx.2 z hz) with h1 | h1
          · exact List.mem_cons.mpr (Or.inl h1)
          · exact List.mem_cons.mpr (Or.inr (List.mem_cons.mpr (Or.inr h1)))

theorem innerPass_length (ys : List downtimePeriod) : ∀ x : downtimePeriod,
    (innerPass x ys).2.length = ys.length := by
  induction ys with
  | nil => intro x; simp [innerPass]
  | cons y ys ih =>
    intro x
    by_cases h : y.start < x.start
    · simp [innerPass, if_pos h, ih y]
    · simp [innerPass, if_neg h, ih x]

theorem innerPass_id (ys : List downtimePeriod) : ∀ x : downtimePeriod,
    (∀ y ∈ ys, ¬ y.start < x.start) → innerPass x ys = (x, ys) := by
  induction ys with
  | nil => intro x _; simp [innerPass]
  | cons y ys ih =>
    intro x h
    have hy : ¬ y.start < x.start := h y (List.mem_cons.mpr (Or.inl rfl))
    have hrest : ∀ z ∈ ys, ¬ z.start < x.start :=
      fun z hz => h z (List.mem_cons.mpr (Or.inr hz))
    simp [innerPass, if_neg hy, ih x hrest]

theorem exchSortAux_subset : ∀ (n : Nat) (l : List downtimePeriod),
    ∀ z ∈ exchSortAux n l, z ∈ l := by
  intro n
  induction n with
  | zero => intro l z hz; simp only [exchSortAux] at hz; exact hz
  | succ n ih =>
    intro l z hz
    cases l with
    | nil =>
      simp only [exchSortAux] at hz
      exact hz
    | cons x xs =>
      simp only [exchSortAux] at hz
      rcases List.mem_cons.mp hz with rfl | hz
      · exact (innerPass_mem xs x).1
      · exact (innerPass_mem xs x).2 z (ih _ z hz)

theorem exchSortAux_length : ∀ (n : Nat) (l : List downtimePeriod),
    (exchSortAux n l).length = l.length := by
  intro n
  induction n with
  | zero => intro l; simp [exchSortAux]
  | succ n ih =>
    intro l
    cases l with
    | nil => simp [exchSortAux]
    | cons x xs => simp [exchSortAux, ih, innerPass_length]

theorem exchSortAux_sorted : ∀ (n : Nat) (l : List downtimePeriod),
    l.length ≤ n → (exchSortAux n l).Pairwise startLE := by
  intro n
  induction n with
  | zero =>
    intro l hl
    have : l = [] := List.length_eq_zero.mp (Nat.le_zero.mp hl)
    simp [this, exchSortAux]
  | succ n ih =>
    intro l hl
    cases l with
    | nil => simp [exchSortAux]
    | cons x xs =>
      simp only [exchSortAux]
      have hlen : (innerPass x xs).2.length ≤ n := by
        rw [innerPass_length]
        exact Nat.le_of_succ_le_succ (by simpa using hl)
      refine List.pairwise_cons.mpr ⟨?_, ih _ hlen⟩
      intro z hz
      exact (innerPass_min xs x).2 z (exchSortAux_subset n _ z hz)

theorem exchSort_sorted (ps : List downtimePeriod) :
    (exchSort ps).Pairwise startLE := exchSortAux_sorted ps.length ps (le_refl _)

theorem exchSortAux_id : ∀ (n : Nat) (l : List downtimePeriod),
    l.Pairwise startLE → exchSortAux n l = l := by
  intro n
  induction n with
  | zero => intro l _; simp [exchSortAux]
  | succ n ih =>
    intro l hl
    cases l with
    | nil => simp [exchSortAux]
    | cons x xs =>
      have hx := List.pairwise_cons.mp hl
      have hnot : ∀ y ∈ xs, ¬ y.start < x.start :=
        fun y hy => not_lt_of_le (hx.1 y hy)
      simp [exchSortAux, innerPass_id xs x hnot, ih xs hx.2]

theorem mergeGo_head (rest : List downtimePeriod) : ∀ cur : downtimePeriod,
    ∃ q l, mergeGo cur rest = q :: l ∧ q.start = cur.start := by
  induction rest with
  | nil => intro cur; exact ⟨cur, [], rfl, rfl⟩
  | cons p ps ih =>
    intro cur
    by_cases h : p.start ≤ cur.stop
    · rcases ih { cur with stop := if cur.stop < p.stop then p.stop else cur.stop }
        with ⟨q, l, hq, hs⟩
      exact ⟨q, l, by simp [mergeGo, if_pos h, hq], hs⟩
    · exact ⟨cur, mergeGo p ps, by simp [mergeGo, if_neg h], rfl⟩

theorem mergeGo_props (rest : List downtimePeriod) : ∀ cur : downtimePeriod,
    (∀ y ∈ rest, cur.start ≤ y.start) → rest.Pairwise startLE →
      ((mergeGo cur rest).Chain' gapLT ∧ (mergeGo cur rest).Pairwise startLE ∧
        ∀ z ∈ mergeGo cur rest, cur.start ≤ z.start) := by
  induction rest with
  | nil =>
    intro cur _ _
    refine ⟨List.chain'_singleton cur, ?_, ?_⟩
    · show List.Pairwise startLE [cur]
      simp
    · intro z hz
      have hzc : z = cur := by
        simp only [mergeGo, List.mem_singleton] at hz
        exact hz
      simp [hzc]
  | cons p ps ih =>
    intro cur hmin hsort
    have hps := List.pairwise_cons.mp hsort
    by_cases h : p.start ≤ cur.stop
    · have hmin' : ∀ y ∈ ps,
          ({ cur with stop := if cur.stop < p.stop then p.stop else cur.stop } :
            downtimePeriod).start ≤ y.start := by
        intro y hy
        exact le_trans (hmin p (List.mem_cons.mpr (Or.inl rfl))) (hps.1 y hy)
      have hrec := ih _ hmin' hps.2
      simp only [mergeGo, if_pos h]
      exact ⟨hrec.1, hrec.2.1, fun z hz => hrec.2.2 z hz⟩
    · have hmin' : ∀ y ∈ ps, p.start ≤ y.start := hps.1
      have hrec := ih p hmin' hps.2
      simp only [mergeGo, if_neg h]
      rcases mergeGo_head ps p with ⟨q, l, hq, hqs⟩
      refine ⟨?_, ?_, ?_⟩
      · rw [hq]
        refine List.chain'_cons.mpr ⟨?_, ?_⟩
        · show cur.stop < q.start
          rw [hqs]; exact lt_of_not_le h
        · rw [← hq]; exact hrec.1
      · refine List.pairwise_cons.mpr ⟨?_, hrec.2.1⟩
        intro z hz
        exact le_trans (hmin p (List.mem_cons.mpr (Or.inl rfl))) (hrec.2.2 z hz)
      · intro z hz
        rcases List.mem_cons.mp hz with rfl | hz
        · exact le_refl _
        · exact le_trans (hmin p (List.mem_cons.mpr (Or.inl rfl))) (hrec.2.2 z hz)

theorem mergeGo_id (rest : List downtimePeriod) : ∀ cur : downtimePeriod,
    (cur :: rest).Chain' gapLT → mergeGo cur rest = cur :: rest := by
  induction rest with
  | nil => intro cur _; rfl
  | cons p ps ih =>
    intro cur hchain
    have h1 := List.chain'_cons.mp hchain
    have hnot : ¬ p.start ≤ cur.stop := not_le_of_lt h1.1
    simp [mergeGo, if_neg hnot, ih p h1.2]

theorem merge_sorted (ps : List downtimePeriod) :
    (mergeOverlappingPeriods ps).Pairwise startLE := by
  unfold mergeOverlappingPeriods
  by_cases h : ps.length ≤ 1
  · rw [if_pos h]
    match ps, h with
    | [], _ => exact List.Pairwise.nil
    | [p], _ => simp
  · rw [if_neg h]
    have hs := exchSort_sorted ps
    match hE : exchSort ps with
    | [] => exact List.Pairwise.nil
    | p :: rest =>
      rw [hE] at hs
      have hp := List.pairwise_cons.mp hs
      exact (mergeGo_props rest p hp.1 hp.2).2.1

theorem merge_chain (ps : List downtimePeriod) :
    (mergeOverlappingPeriods ps).Chain' gapLT := by
  unfold mergeOverlappingPeriods
  by_cases h : ps.length ≤ 1
  · rw [if_pos h]
    match ps, h with
    | [], _ => exact List.chain'_nil
    | [p], _ => exact List.chain'_singleton p
  · rw [if_neg h]
    have hs := exchSort_sorted ps
    match hE : exchSort ps with
    | [] => exact List.chain'_nil
    | p :: rest =>
      rw [hE] at hs
      have hp := List.pairwise_cons.mp hs
      exact (mergeGo_props rest p hp.1 hp.2).1

theorem merge_length_le (ps : List downtimePeriod) (h : ps.length ≤ 1) :
    mergeOverlappingPeriods ps = ps := by
  unfold mergeOverlappingPeriods
  rw [if_pos h]

/-! ## Claim theorems -/

/-- C2.  The downtime merge sorts the clamped intervals by start ascending
(the sorted output is pairwise nondecreasing in `start`), folds left to
right extending the current interval exactly when the next start is ≤ the
current end (touching counts) and starting a new interval otherwise, and
the total downtime is the sum of (end − start) over the merged set.  For
the two events [10:00,11:00) and [10:30,12:00) the merged result is exactly
[10:00,12:00) and the total downtime reported by
`calculateServiceDowntime` is 2 hours, not 2.5. -/
theorem merge_algorithm_and_example :
    (∀ ps : List downtimePeriod, (exchSort ps).Pairwise startLE) ∧
    (∀ (cur p : downtimePeriod) (ps : List downtimePeriod), p.start ≤ cur.stop →
      mergeGo cur (p :: ps) =
        mergeGo { cur with stop := if cur.stop < p.stop then p.stop else cur.stop } ps) ∧
    (∀ (cur p : downtimePeriod) (ps : List downtimePeriod), cur.stop < p.start →
      mergeGo cur (p :: ps) = cur :: mergeGo p ps) ∧
    mergeOverlappingPeriods [⟨10, 11⟩, ⟨21/2, 12⟩] = [⟨10, 12⟩] ∧
    calculateServiceDowntime (some dbEx) "member" "svc" [] 0 720 = 2 := by
  refine ⟨exchSort_sorted, ?_, ?_, ?_, ?_⟩
  · intro cur p ps h
    simp [mergeGo, if_pos h]
  · intro cur p ps h
    simp [mergeGo, if_neg (not_le_of_lt h)]
  · norm_num [mergeOverlappingPeriods, exchSort, exchSortAux, innerPass, mergeGo]
  · norm_num [calculateServiceDowntime, dbEx, clampToPeriod, mergeOverlappingPeriods,
      exchSort, exchSortAux, innerPass, mergeGo, sumHours]
    simp

/-- Witness for C2: the extension and new-interval rules applied at
concrete inputs, discharging their order hypotheses. -/
theorem merge_algorithm_and_example_witness :
    ((21 : ℚ)/2 ≤ 11 ∧
      mergeGo ⟨10, 11⟩ [⟨21/2, 12⟩] =
        mergeGo ⟨10, if (11 : ℚ) < 12 then 12 else 11⟩ []) ∧
    ((2 : ℚ) < 3 ∧ mergeGo ⟨1, 2⟩ [⟨3, 4⟩] = ⟨1, 2⟩ :: mergeGo ⟨3, 4⟩ []) := by
  constructor
  · exact ⟨by norm_num,
      merge_algorithm_and_example.2.1 ⟨10, 11⟩ ⟨21/2, 12⟩ [] (by norm_num)⟩
  · exact ⟨by norm_num,
      merge_algorithm_and_example.2.2.1 ⟨1, 2⟩ ⟨3, 4⟩ [] (by norm_num)⟩

/-- C8.  The downtime merge is idempotent: merging an already-merged list
returns it unchanged. -/
theorem mergeOverlappingPeriods_idempotent (ps : List downtimePeriod) :
    mergeOverlappingPeriods (mergeOverlappingPeriods ps) = mergeOverlappingPeriods ps := by
  by_cases hm : (mergeOverlappingPeriods ps).length ≤ 1
  · exact merge_length_le _ hm
  · have hsorted := merge_sorted ps
    have hchain := merge_chain ps
    cases hmm : mergeOverlappingPeriods ps with
    | nil => rw [hmm] at hm; simp at hm
    | cons q l =>
      rw [hmm] at hm hsorted hchain
      have hid : exchSort (q :: l) = q :: l := exchSortAux_id _ _ hsorted
      unfold mergeOverlappingPeriods
      rw [if_neg hm, hid]
      exact mergeGo_id l q hchain

/-- C5.  The cost of one service instance is
nodes × (cores×pricePerCore + memoryGB×pricePerGBMemory + diskGB×pricePerGBDisk
+ bandwidthGB×pricePerGBBandwidth) for every allocation and price sheet, and
an allocation with zero nodes yields cost zero rather than an error. -/
theorem costForServiceInstance_formula (res : Resources) (price : IaasPricing) :
    costForServiceInstance res price =
      (res.Nodes : ℚ) * ((res.Cores : ℚ) * price.Cores + (res.Memory : ℚ) * price.Memory +
        (res.Disk : ℚ) * price.Disk + (res.Bandwidth : ℚ) * price.Bandwidth) ∧
    costForServiceInstance { res with Nodes := 0 } price = 0 := by
  constructor
  · unfold costForServiceInstance
    by_cases h : res.Nodes = 0
    · simp [h]
    · rw [if_neg h]; ring
  · simp [costForServiceInstance]

/-- C6.  For every evaluated pair, uptime hours are
max(0, totalHours − downHours), the uptime percentage is
uptime/total × 100 for a positive window and 100 otherwise, the SLA test is
an inclusive ≥ against 99.99, and a 720-hour window with 0.072 (= 9/125)
hours of downtime scores exactly 99.99% and passes. -/
theorem sla_evaluation (totalHours slaHours downtime : ℚ) :
    (slaBreakdownFor totalHours slaHours downtime).HoursUp =
      max 0 (totalHours - downtime) ∧
    (slaBreakdownFor totalHours slaHours downtime).Uptime =
      (if 0 < totalHours then (max 0 (totalHours - downtime) / totalHours) * 100
       else 100) ∧
    ((slaBreakdownFor totalHours slaHours downtime).MeetsSLA = true ↔
      DefaultSLAPercentage ≤ (slaBreakdownFor totalHours slaHours downtime).Uptime) ∧
    (slaBreakdownFor 720 slaHours (9/125)).Uptime = DefaultSLAPercentage ∧
    (slaBreakdownFor 720 slaHours (9/125)).MeetsSLA = true := by
  have hup : (if totalHours - downtime < 0 then 0 else totalHours - downtime) =
      max 0 (totalHours - downtime) := by
    rcases lt_or_le (totalHours - downtime) 0 with h | h
    · rw [if_pos h, max_eq_left h.le]
    · rw [if_neg (not_lt_of_le h), max_eq_right h]
  refine ⟨?_, ?_, ?_, ?_, ?_⟩
  · simp only [slaBreakdownFor]
    exact hup
  · simp only [slaBreakdownFor, hup]
  · simp only [slaBreakdownFor]
    exact decide_eq_true_iff
  · norm_num [slaBreakdownFor, DefaultSLAPercentage]
  · norm_num [slaBreakdownFor, DefaultSLAPercentage]

/-- C10.  For every pair absent from the SLA summary, `getSLABreakdown`
returns the fixed default: 730 total hours, 0 down, 100% uptime, SLA met —
so such a pair is billed at full base cost (base × uptime/100 = base) and
counted as passing. -/
theorem getSLABreakdown_default (sla : SLASummaryL) (member service : String)
    (h : pairAbsent sla member service) :
    getSLABreakdown sla member service = defaultSLABreakdown ∧
    (getSLABreakdown sla member service).HoursTotal = 730 ∧
    (getSLABreakdown sla member service).HoursDown = 0 ∧
    (getSLABreakdown sla member service).Uptime = 100 ∧
    (getSLABreakdown sla member service).MeetsSLA = true ∧
    ∀ base : ℚ, base * ((getSLABreakdown sla member service).Uptime / 100) = base := by
  have hd : getSLABreakdown sla member service = defaultSLABreakdown := by
    unfold getSLABreakdown
    cases hm : alookup sla member with
    | none => rfl
    | some upm =>
      have hs := h upm hm
      simp [hs]
  refine ⟨hd, ?_, ?_, ?_, ?_, ?_⟩ <;> rw [hd]
  · rfl
  · rfl
  · rfl
  · rfl
  · intro base
    norm_num [defaultSLABreakdown]

/-- Witness for C10: the empty summary has every pair absent and yields the
default breakdown. -/
theorem getSLABreakdown_default_witness :
    pairAbsent [] "member" "service" ∧
      getSLABreakdown [] "member" "service" = defaultSLABreakdown := by
  have hp : pairAbsent [] "member" "service" := by
    intro upm hupm
    simp [alookup] at hupm
  exact ⟨hp, (getSLABreakdown_default [] "member" "service" hp).1⟩

/-- C3.  When the overview artifact or any member artifact of a monthly
generation run fails, the run does not record success: the recorded month
is left at the prior Done state, the in-progress flag is cleared, a later
trigger for the same month runs the whole generation again, and the
recorded month is advanced to the target only when every required output
succeeded. -/
theorem generation_failure_not_recorded (st : GenState) (m : Nat) (env : GenEnv)
    (hready : st.lastGeneratedBillingMonth < m)
    (hidle : st.billingGenerationInProgress = false)
    (hfail : env.overviewOk = false ∨ ∃ r ∈ env.memberResults, r.2 = false) :
    (generateMonthlyBillingPDF st m env).1.lastGeneratedBillingMonth =
        st.lastGeneratedBillingMonth ∧
    (generateMonthlyBillingPDF st m env).1.billingGenerationInProgress = false ∧
    (generateMonthlyBillingPDF st m env).2.1 = true ∧
    (generateMonthlyBillingPDF st m env).2.2 = false ∧
    (∀ env' : GenEnv,
      (generateMonthlyBillingPDF (generateMonthlyBillingPDF st m env).1 m env').2.1 =
        true) ∧
    (∀ env' : GenEnv,
      (generateMonthlyBillingPDF st m env').1.lastGeneratedBillingMonth = m →
        env'.tmpDirOk = true ∧ env'.mkdirOk = true ∧ env'.overviewOk = true ∧
          ∀ r ∈ env'.memberResults, r.2 = true) := by
  have hnle : ¬ m ≤ st.lastGeneratedBillingMonth := Nat.not_le.mpr hready
  have hgen : genBody env = false := by
    unfold genBody
    rcases hfail with h | ⟨r, hr, hf⟩
    · simp [h]
    · have : env.memberResults.all (fun r => r.2) = false := by
        rw [List.all_eq_false]
        exact ⟨r, hr, by simp [hf]⟩
      simp [this]
  have hrun : generateMonthlyBillingPDF st m env =
      ({ lastGeneratedBillingMonth := st.lastGeneratedBillingMonth,
         billingGenerationInProgress := false }, true, false) := by
    simp [generateMonthlyBillingPDF, doBegin, doFinish, hnle, hidle, hgen]
  refine ⟨by rw [hrun], by rw [hrun], by rw [hrun], by rw [hrun], ?_, ?_⟩
  · intro env'
    rw [hrun]
    simp [generateMonthlyBillingPDF, doBegin, hnle]
  · intro env' hadv
    by_cases hsucc : genBody env' = true
    · unfold genBody at hsucc
      simp only [Bool.and_eq_true, List.all_eq_true] at hsucc
      exact ⟨hsucc.1.1.1, hsucc.1.1.2, hsucc.1.2, fun r hr => hsucc.2 r hr⟩
    · exfalso
      have hg : genBody env' = false := by
        cases hq : genBody env'
        · rfl
        · exact absurd hq hsucc
      rw [show generateMonthlyBillingPDF st m env' =
          ({ lastGeneratedBillingMonth := st.lastGeneratedBillingMonth,
             billingGenerationInProgress := false }, true, false) by
        simp [generateMonthlyBillingPDF, doBegin, doFinish, hnle, hidle, hg]] at hadv
      simp at hadv
      omega

/-- Witness for C3: from Done(0), a run for month 1 whose overview write
fails leaves the recorded month at 0. -/
theorem generation_failure_not_recorded_witness :
    (0 < 1 ∧ env0.overviewOk = false) ∧
      (generateMonthlyBillingPDF ⟨0, false⟩ 1 env0).1.lastGeneratedBillingMonth = 0 :=
  ⟨⟨by decide, rfl⟩,
    (generation_failure_not_recorded ⟨0, false⟩ 1 env0 (by decide) rfl
      (Or.inl rfl)).1⟩

/-- C4.  Two concurrent triggers for the same target month, serialised by
the dedup mutex into any interleaving of their two critical sections each,
result in exactly one thread generating (the other observes the
in-progress flag or the recorded month and no-ops), with the month
recorded and the flag cleared at the end. -/
theorem concurrent_triggers_one_runs (L m : Nat) (σ : List Bool)
    (hlm : L < m) (hlen : σ.length = 4) (hcnt : σ.count true = 2) :
    ((runTwo L m σ).tA.proceeded ≠ (runTwo L m σ).tB.proceeded) ∧
    (runTwo L m σ).gen.lastGeneratedBillingMonth = m ∧
    (runTwo L m σ).gen.billingGenerationInProgress = false ∧
    (runTwo L m σ).tA.pc = 2 ∧ (runTwo L m σ).tB.pc = 2 := by
  have hnle : ¬ m ≤ L := Nat.not_le.mpr hlm
  rcases σ with _ | ⟨b1, σ⟩
  · simp at hlen
  rcases σ with _ | ⟨b2, σ⟩
  · simp at hlen
  rcases σ with _ | ⟨b3, σ⟩
  · simp at hlen
  rcases σ with _ | ⟨b4, σ⟩
  · simp at hlen
  rcases σ with _ | ⟨b5, σ⟩
  · cases b1 <;> cases b2 <;> cases b3 <;> cases b4 <;>
      first
        | exact absurd hcnt (by decide)
        | simp [runTwo, runSched, stepThread, doBegin, doFinish, hnle, hlm]
  · simp at hlen

/-- Witness for C4: the schedule A-begin, A-finish, B-begin, B-finish from
Done(0) targeting month 1. -/
theorem concurrent_triggers_one_runs_witness :
    (0 < 1 ∧ ([true, true, false, false] : List Bool).length = 4 ∧
      ([true, true, false, false] : List Bool).count true = 2) ∧
      (runTwo 0 1 [true, true, false, false]).gen.lastGeneratedBillingMonth = 1 :=
  ⟨⟨by decide, by decide, by decide⟩,
    (concurrent_triggers_one_runs 0 1 [true, true, false, false] (by decide)
      (by decide) (by decide)).2.1⟩

/-- C9, counterexample.  With a reachable database handle whose downtime
queries all fail, `CalculateSLAAdjustments` still returns a successful
result reporting 100% uptime and a met SLA for the evaluated pair — it does
not surface a failed operation, contradicting the claim's second half. -/
theorem sla_query_failure_not_surfaced :
    CalculateSLAAdjustments (some dbFail) c9cfg 0 720 sum9 =
      .ok [("m1", [("svc", slaBreakdownFor 720 (720 * (DefaultSLAPercentage / 100)) 0)])] ∧
    (slaBreakdownFor 720 (720 * (DefaultSLAPercentage / 100)) 0).Uptime = 100 ∧
    (slaBreakdownFor 720 (720 * (DefaultSLAPercentage / 100)) 0).MeetsSLA = true := by
  refine ⟨?_, ?_, ?_⟩
  · norm_num [CalculateSLAAdjustments, calculateServiceDowntime, dbNameOf, dbFail,
      c9cfg, sum9, alookup]
  · norm_num [slaBreakdownFor]
  · norm_num [slaBreakdownFor, DefaultSLAPercentage]

/-- C9, amended.  An absent database handle does surface a failed
operation: `CalculateSLAAdjustments` returns the "database not initialized"
error.  A failed per-pair downtime query, however, is only logged: when
every query a pair issues fails (or the service query is skipped for lack
of domains), the pair's downtime is silently computed as 0 — full uptime —
instead of an error. -/
theorem sla_error_handling (db : DB) (mn sn : String) (doms : List String)
    (s e : ℚ) (msg msg2 : String)
    (hsite : db.siteEvents mn s e = .error msg)
    (hsvc : doms = [] ∨ db.serviceEvents mn doms s e = .error msg2) :
    (∀ (c : Config) (s' e' : ℚ) (sum : Summary),
      CalculateSLAAdjustments none c s' e' sum = .error "database not initialized") ∧
    calculateServiceDowntime (some db) mn sn doms s e = 0 := by
  constructor
  · intro c s' e' sum
    rfl
  · rcases hsvc with h | h
    · simp [calculateServiceDowntime, hsite, h]
    · by_cases hd : doms = []
      · simp [calculateServiceDowntime, hsite, hd]
      · simp [calculateServiceDowntime, hsite, hd, h]

/-- Witness for C9's amended theorem: the always-failing store yields zero
downtime for a pair with no domains. -/
theorem sla_error_handling_witness :
    (dbFail.siteEvents "m" 0 720 = .error "db down") ∧
      calculateServiceDowntime (some dbFail) "m" "svc" [] 0 720 = 0 :=
  ⟨rfl, (sla_error_handling dbFail "m" "svc" [] 0 720 "db down" "db down" rfl
    (Or.inl rfl)).2⟩

/-! ## Lemmas for the cost-sum invariant (claim C1) -/

theorem alookup_eq_none_iff {α : Type} (m : List (String × α)) (k : String) :
    alookup m k = none ↔ k ∉ m.map Prod.fst := by
  induction m with
  | nil => simp [alookup]
  | cons kv rest ih =>
    obtain ⟨k', v⟩ := kv
    by_cases h : k' = k
    · simp [alookup, h]
    · simp [alookup, h, ih, Ne.symm h]

theorem aset_append {α : Type} (m : List (String × α)) (k : String) (v : α)
    (h : alookup m k = none) : aset m k v = m ++ [(k, v)] := by
  induction m with
  | nil => rfl
  | cons kv rest ih =>
    obtain ⟨k', v'⟩ := kv
    by_cases hk : k' = k
    · simp [alookup, hk] at h
    · simp only [alookup, if_neg hk] at h
      simp [aset, hk, ih h]

theorem sumMemTotals_append (m : List (String × MemberCost)) (k : String)
    (v : MemberCost) :
    sumMemTotals (m ++ [(k, v)]) = sumMemTotals m + v.Total := by
  induction m with
  | nil => simp [sumMemTotals]
  | cons kv rest ih =>
    simp only [List.cons_append, sumMemTotals, List.append_eq, ih]
    ring

theorem alookup_aset {α : Type} (m : List (String × α)) (k' k : String) (v w : α)
    (h : alookup (aset m k' v) k = some w) : w = v ∨ alookup m k = some w := by
  induction m with
  | nil =>
    by_cases hk : k' = k
    · left
      simp [aset, alookup, hk] at h
      exact h.symm
    · simp [aset, alookup, hk] at h
  | cons kv rest ih =>
    obtain ⟨a, b⟩ := kv
    by_cases ha : a = k'
    · by_cases hk : k' = k
      · left
        simp [aset, alookup, ha, hk] at h
        exact h.symm
      · right
        simp only [aset, if_pos ha, alookup, if_neg hk] at h
        simp only [alookup, if_neg (ha ▸ hk : ¬ a = k)]
        exact h
    · by_cases hak : a = k
      · right
        simp only [aset, if_neg ha, alookup, if_pos hak] at h
        simp only [alookup, if_pos hak]
        exact h
      · simp only [aset, if_neg ha, alookup, if_neg hak] at h
        simp only [alookup, if_neg hak]
        exact ih h

theorem alookup_foldl_aset {α : Type} (l : List (String × α)) :
    ∀ (m : List (String × α)) (k : String) (w : α),
      alookup (l.foldl (fun m kv => aset m (normKey kv.1) kv.2) m) k = some w →
      (∃ kv ∈ l, kv.2 = w) ∨ alookup m k = some w := by
  induction l with
  | nil => intro m k w h; right; exact h
  | cons kv rest ih =>
    intro m k w h
    rcases ih _ k w h with h1 | h1
    · obtain ⟨kv', hkv', hw⟩ := h1
      exact Or.inl ⟨kv', by simp [hkv'], hw⟩
    · rcases alookup_aset m (normKey kv.1) k kv.2 w h1 with h2 | h2
      · exact Or.inl ⟨kv, by simp, h2.symm⟩
      · exact Or.inr h2

theorem priceIndex_nonneg (c : Config) (hP : ∀ kv ∈ c.Pricing, PriceNonneg kv.2)
    (k : String) (price : IaasPricing) (h : alookup (priceIndex c) k = some price) :
    PriceNonneg price := by
  rcases alookup_foldl_aset c.Pricing [] k price h with ⟨kv, hkv, hw⟩ | h1
  · rw [← hw]
    exact hP kv hkv
  · simp [alookup] at h1

theorem costForServiceInstance_nonneg (res : Resources) (price : IaasPricing)
    (hp : PriceNonneg price) : 0 ≤ costForServiceInstance res price := by
  unfold costForServiceInstance
  by_cases h : res.Nodes = 0
  · simp [h]
  · rw [if_neg h]
    have hper : (0 : ℚ) ≤ (res.Cores : ℚ) * price.Cores + (res.Memory : ℚ) * price.Memory +
        (res.Disk : ℚ) * price.Disk + (res.Bandwidth : ℚ) * price.Bandwidth := by
      have h1 := mul_nonneg (Nat.cast_nonneg res.Cores) hp.1
      have h2 := mul_nonneg (Nat.cast_nonneg res.Memory) hp.2.1
      have h3 := mul_nonneg (Nat.cast_nonneg res.Disk) hp.2.2.1
      have h4 := mul_nonneg (Nat.cast_nonneg res.Bandwidth) hp.2.2.2
      linarith
    exact mul_nonneg hper (Nat.cast_nonneg res.Nodes)

theorem assignmentCost_nonneg (S : List (String × Service)) (price : IaasPricing)
    (n : String) (hp : PriceNonneg price) : 0 ≤ assignmentCost S price n := by
  unfold assignmentCost
  cases alookup S (normKey n) with
  | none => exact le_refl 0
  | some svc =>
    by_cases h : svc.Configuration.Active ≠ 1
    · simp [h]
    · simp only [h, if_false]
      exact costForServiceInstance_nonneg svc.Resources price hp

theorem namesCost_nonneg (S : List (String × Service)) (price : IaasPricing)
    (names : List String) (hp : PriceNonneg price) : 0 ≤ namesCost S price names := by
  induction names with
  | nil => exact le_refl 0
  | cons n rest ih => exact add_nonneg (assignmentCost_nonneg S price n hp) ih

theorem memberPairCosts_nonneg (S : List (String × Service)) (price : IaasPricing)
    (asgn : List (String × List String)) (hp : PriceNonneg price) :
    0 ≤ memberPairCosts S price asgn := by
  induction asgn with
  | nil => exact le_refl 0
  | cons kv rest ih => exact add_nonneg (namesCost_nonneg S price kv.2 hp) ih

theorem updateServiceCost_total (s mn : String) (c : ℚ) :
    ∀ m : List (String × ServiceCost),
      sumSvcTotals (updateServiceCost m s mn c) = sumSvcTotals m + c := by
  intro m
  induction m with
  | nil =>
    by_cases hn : (svcZero).ServiceName = "" <;>
      simp [updateServiceCost, alookup, aset, sumSvcTotals, svcZero]
  | cons kv rest ih =>
    obtain ⟨k', v⟩ := kv
    by_cases h : k' = s
    · by_cases hn : v.ServiceName = "" <;>
        · simp [updateServiceCost, alookup, aset, h, hn, sumSvcTotals]
          ring
    · have hstep : updateServiceCost ((k', v) :: rest) s mn c =
          (k', v) :: updateServiceCost rest s mn c := by
        simp [updateServiceCost, alookup, aset, h]
      rw [hstep]
      simp only [sumSvcTotals, ih]
      ring

theorem processAssignment_sums (S : List (String × Service)) (price : IaasPricing)
    (mn : String) (st : MemberCost × List (String × ServiceCost)) (n : String) :
    (processAssignment S price mn st n).1.Total =
        st.1.Total + assignmentCost S price n ∧
    sumSvcTotals (processAssignment S price mn st n).2 =
        sumSvcTotals st.2 + assignmentCost S price n := by
  cases hE : alookup S (normKey n) with
  | none => simp [processAssignment, assignmentCost, hE]
  | some svc =>
    by_cases h : svc.Configuration.Active ≠ 1
    · simp [processAssignment, assignmentCost, hE, h]
    · simp [processAssignment, assignmentCost, hE, h, updateServiceCost_total]

theorem foldl_names_sums (S : List (String × Service)) (price : IaasPricing)
    (mn : String) : ∀ (names : List String)
      (st : MemberCost × List (String × ServiceCost)),
    (names.foldl (processAssignment S price mn) st).1.Total =
        st.1.Total + namesCost S price names ∧
    sumSvcTotals ((names.foldl (processAssignment S price mn) st).2) =
        sumSvcTotals st.2 + namesCost S price names := by
  intro names
  induction names with
  | nil => intro st; simp [namesCost]
  | cons n rest ih =>
    intro st
    have h1 := processAssignment_sums S price mn st n
    have h2 := ih (processAssignment S price mn st n)
    simp only [List.foldl_cons, namesCost]
    exact ⟨by rw [h2.1, h1.1]; ring, by rw [h2.2, h1.2]; ring⟩

theorem foldl_assign_sums (S : List (String × Service)) (price : IaasPricing)
    (mn : String) : ∀ (asgn : List (String × List String))
      (st : MemberCost × List (String × ServiceCost)),
    ((asgn.foldl (fun st kv => kv.2.foldl (processAssignment S price mn) st) st).1.Total =
        st.1.Total + memberPairCosts S price asgn) ∧
    (sumSvcTotals ((asgn.foldl
          (fun st kv => kv.2.foldl (processAssignment S price mn) st) st).2) =
        sumSvcTotals st.2 + memberPairCosts S price asgn) := by
  intro asgn
  induction asgn with
  | nil => intro st; simp [memberPairCosts]
  | cons kv rest ih =>
    intro st
    have h1 := foldl_names_sums S price mn kv.2 st
    have h2 := ih (kv.2.foldl (processAssignment S price mn) st)
    simp only [List.foldl_cons, memberPairCosts]
    exact ⟨by rw [h2.1, h1.1]; ring, by rw [h2.2, h1.2]; ring⟩

theorem processMember_step (S : List (String × Service))
    (P : List (String × IaasPricing))
    (hPn : ∀ k p, alookup P k = some p → PriceNonneg p)
    (acc : List (String × MemberCost) × List (String × ServiceCost))
    (entry : String × Member) (hfresh : alookup acc.1 entry.1 = none) :
    sumMemTotals (processMember S P acc entry).1 =
        sumMemTotals acc.1 + memberCostOf S P entry.2 ∧
    sumSvcTotals (processMember S P acc entry).2 =
        sumSvcTotals acc.2 + memberCostOf S P entry.2 ∧
    ((processMember S P acc entry).1.map Prod.fst = acc.1.map Prod.fst ∨
      (processMember S P acc entry).1.map Prod.fst =
        acc.1.map Prod.fst ++ [entry.1]) := by
  cases hR : alookup P (normKey entry.2.Location.Region) with
  | none => simp [processMember, memberCostOf, hR]
  | some price =>
    have hprice : PriceNonneg price := hPn _ price hR
    have hmc : memberCostOf S P entry.2 =
        memberPairCosts S price entry.2.ServiceAssignments := by
      simp [memberCostOf, hR]
    set st := entry.2.ServiceAssignments.foldl
        (fun st kv => kv.2.foldl (processAssignment S price entry.1) st)
        ({ MemberName := entry.1, ServiceCosts := [], Total := 0 }, acc.2) with hstdef
    have hfold := foldl_assign_sums S price entry.1 entry.2.ServiceAssignments
      ({ MemberName := entry.1, ServiceCosts := [], Total := 0 }, acc.2)
    have hTot : st.1.Total = memberPairCosts S price entry.2.ServiceAssignments := by
      rw [hstdef]
      simpa using hfold.1
    have hSvc : sumSvcTotals st.2 =
        sumSvcTotals acc.2 + memberPairCosts S price entry.2.ServiceAssignments := by
      rw [hstdef]
      simpa using hfold.2
    have hpm : processMember S P acc entry =
        if 0 < st.1.Total then (aset acc.1 entry.1 st.1, st.2) else (acc.1, st.2) := by
      simp [processMember, hR, hstdef]
    by_cases hkeep : 0 < st.1.Total
    · rw [hpm, if_pos hkeep]
      refine ⟨?_, ?_, Or.inr ?_⟩
      · rw [aset_append acc.1 entry.1 st.1 hfresh, sumMemTotals_append, hTot, hmc]
      · rw [hSvc, hmc]
      · rw [aset_append acc.1 entry.1 st.1 hfresh]
        simp
    · have hzero : memberPairCosts S price entry.2.ServiceAssignments = 0 :=
        le_antisymm (by rw [← hTot]; exact not_lt.mp hkeep)
          (memberPairCosts_nonneg S price _ hprice)
      rw [hpm, if_neg hkeep]
      refine ⟨?_, ?_, Or.inl rfl⟩
      · rw [hmc, hzero]
        ring
      · rw [hSvc, hmc, hzero]

theorem refresh_fold (S : List (String × Service)) (P : List (String × IaasPricing))
    (hPn : ∀ k p, alookup P k = some p → PriceNonneg p) :
    ∀ (members : List (String × Member))
      (acc : List (String × MemberCost) × List (String × ServiceCost)),
    (members.map Prod.fst).Nodup →
    (∀ kv ∈ members, alookup acc.1 kv.1 = none) →
    sumMemTotals ((members.foldl (processMember S P) acc).1) =
        sumMemTotals acc.1 + allPairCostsAux S P members ∧
    sumSvcTotals ((members.foldl (processMember S P) acc).2) =
        sumSvcTotals acc.2 + allPairCostsAux S P members := by
  intro members
  induction members with
  | nil => intro acc _ _; simp [allPairCostsAux]
  | cons entry rest ih =>
    intro acc hnd hfr
    have hfresh : alookup acc.1 entry.1 = none := hfr entry (by simp)
    have hstep := processMember_step S P hPn acc entry hfresh
    have hnd2 : (rest.map Prod.fst).Nodup := (List.nodup_cons.mp (by simpa using hnd)).2
    have hent : entry.1 ∉ rest.map Prod.fst := (List.nodup_cons.mp (by simpa using hnd)).1
    have hfr2 : ∀ kv ∈ rest, alookup (processMember S P acc entry).1 kv.1 = none := by
      intro kv hkv
      rw [alookup_eq_none_iff]
      have hold : kv.1 ∉ acc.1.map Prod.fst :=
        (alookup_eq_none_iff acc.1 kv.1).mp (hfr kv (by simp [hkv]))
      rcases hstep.2.2 with hmap | hmap <;> rw [hmap]
      · exact hold
      · intro hmem
        rcases List.mem_append.mp hmem with hmem2 | hmem2
        · exact hold hmem2
        · have hkv1 : kv.1 = entry.1 := by simpa using hmem2
          exact hent (hkv1 ▸ List.mem_map_of_mem Prod.fst hkv)
    have hrec := ih (processMember S P acc entry) hnd2 hfr2
    simp only [List.foldl_cons, allPairCostsAux]
    exact ⟨by rw [hrec.1, hstep.1]; ring, by rw [hrec.2, hstep.2.1]; ring⟩

/-- C1, counterexample.  With a negative per-core rate, the single member's
total is -1, so it is dropped from the Members map (`Total > 0` fails)
while its pair cost stays in the Services map: the published member sum is
0, the service sum and the sum of all pair costs are -1, and the claimed
equality fails. -/
theorem refresh_cost_sum_counterexample :
    sumMemTotals (refresh cNeg).Members ≠ sumSvcTotals (refresh cNeg).Services ∧
    sumMemTotals (refresh cNeg).Members = 0 ∧
    sumSvcTotals (refresh cNeg).Services = -1 ∧
    allPairCosts cNeg = -1 := by
  norm_num [refresh, cNeg, memA, svcA, svcIndex, priceIndex, processMember,
    processAssignment, updateServiceCost, costForServiceInstance, assignmentCost,
    memberCostOf, memberPairCosts, namesCost, allPairCosts, allPairCostsAux,
    alookup, aset, bump, svcZero, sumMemTotals, sumSvcTotals]

/-- C1, amended.  After any refresh of a configuration whose member keys
are distinct (a Go map) and whose price sheets are nonnegative, the sum of
`MemberCost.Total` over the Members map, the sum of `ServiceCost.Total`
over the Services map, and the sum of all per-(member,service)-pair costs
coincide; members skipped for unknown regions or services contribute
nothing, and members dropped for the `Total > 0` test then have total
exactly zero.  (With a negative rate the dropped member may have a negative
total and the equality fails — see the counterexample.) -/
theorem refresh_cost_sum_invariant (c : Config)
    (hnodup : (c.Members.map Prod.fst).Nodup)
    (hP : ∀ kv ∈ c.Pricing, PriceNonneg kv.2) :
    sumMemTotals (refresh c).Members = allPairCosts c ∧
    sumSvcTotals (refresh c).Services = allPairCosts c := by
  have hPn : ∀ k p, alookup (priceIndex c) k = some p → PriceNonneg p :=
    fun k p h => priceIndex_nonneg c hP k p h
  have h := refresh_fold (svcIndex c) (priceIndex c) hPn c.Members ([], [])
    hnodup (fun kv _ => rfl)
  constructor
  · have h1 := h.1
    simp only [sumMemTotals] at h1
    simpa [refresh, allPairCosts] using h1
  · have h2 := h.2
    simp only [sumSvcTotals] at h2
    simpa [refresh, allPairCosts] using h2

/-- Witness for C1's amended theorem at a concrete nonnegative
configuration. -/
theorem refresh_cost_sum_invariant_witness :
    sumMemTotals (refresh cPos).Members = allPairCosts cPos ∧
    sumSvcTotals (refresh cPos).Services = allPairCosts cPos :=
  refresh_cost_sum_invariant cPos (by simp [cPos])
    (by
      intro kv hkv
      simp only [cPos, List.mem_singleton] at hkv
      subst hkv
      norm_num [PriceNonneg])

/-! ## Lemmas for the deep copy (claim C7) -/

theorem heapGet_cons_zero (a : List (String × ℚ)) (t : CellHeap) :
    heapGet (a :: t) 0 = a := rfl

theorem heapGet_cons_succ (a : List (String × ℚ)) (t : CellHeap) (j : Nat) :
    heapGet (a :: t) (j + 1) = heapGet t j := by
  simp [heapGet]

theorem heapGet_append_lt (h : CellHeap) (x : List (String × ℚ)) :
    ∀ i, i < h.length → heapGet (h ++ [x]) i = heapGet h i := by
  induction h with
  | nil => intro i hi; simp at hi
  | cons a t ih =>
    intro i hi
    cases i with
    | zero => rfl
    | succ j =>
      rw [List.cons_append, heapGet_cons_succ, heapGet_cons_succ]
      exact ih j (by simpa using hi)

theorem heapGet_append_len (h : CellHeap) (x : List (String × ℚ)) :
    heapGet (h ++ [x]) h.length = x := by
  induction h with
  | nil => rfl
  | cons a t ih =>
    rw [List.cons_append]
    show heapGet (a :: (t ++ [x])) (t.length + 1) = x
    rw [heapGet_cons_succ]
    exact ih

theorem heapGet_set_ne (v : List (String × ℚ)) :
    ∀ (H : CellHeap) (r i : Nat), r ≠ i →
      heapGet (heapSet H r v) i = heapGet H i := by
  intro H
  induction H with
  | nil => intro r i _; rfl
  | cons a t ih =>
    intro r i hne
    cases r with
    | zero =>
      cases i with
      | zero => exact absurd rfl hne
      | succ j => rw [show heapSet (a :: t) 0 v = v :: t from rfl,
          heapGet_cons_succ, heapGet_cons_succ]
    | succ s =>
      cases i with
      | zero => rfl
      | succ j =>
        rw [show heapSet (a :: t) (s + 1) v = a :: heapSet t s v from rfl,
          heapGet_cons_succ, heapGet_cons_succ]
        exact ih s j (fun hh => hne (by rw [hh]))

theorem readMembers_congr (h h' : CellHeap) (l : List (String × MemberCostRef))
    (hc : ∀ kv ∈ l, heapGet h' kv.2.ServiceCosts = heapGet h kv.2.ServiceCosts) :
    readMembers h' l = readMembers h l := by
  induction l with
  | nil => rfl
  | cons kv rest ih =>
    simp only [readMembers, List.map_cons]
    refine congrArg₂ _ ?_ ?_
    · rw [hc kv (by simp)]
    · exact ih (fun kv hkv => hc kv (by simp [hkv]))

theorem readServices_congr (h h' : CellHeap) (l : List (String × ServiceCostRef))
    (hc : ∀ kv ∈ l, heapGet h' kv.2.MemberCosts = heapGet h kv.2.MemberCosts) :
    readServices h' l = readServices h l := by
  induction l with
  | nil => rfl
  | cons kv rest ih =>
    simp only [readServices, List.map_cons]
    refine congrArg₂ _ ?_ ?_
    · rw [hc kv (by simp)]
    · exact ih (fun kv hkv => hc kv (by simp [hkv]))

theorem copyMembers_spec : ∀ (l : List (String × MemberCostRef)) (h : CellHeap),
    (∀ kv ∈ l, kv.2.ServiceCosts < h.length) →
    (h.length ≤ (copyMembers h l).1.length ∧
     (∀ i, i < h.length → heapGet (copyMembers h l).1 i = heapGet h i) ∧
     (∀ kv ∈ (copyMembers h l).2, h.length ≤ kv.2.ServiceCosts ∧
        kv.2.ServiceCosts < (copyMembers h l).1.length) ∧
     readMembers (copyMembers h l).1 (copyMembers h l).2 = readMembers h l) := by
  intro l
  induction l with
  | nil =>
    intro h _
    exact ⟨le_refl _, fun i _ => rfl, by simp [copyMembers],
      by simp [copyMembers, readMembers]⟩
  | cons kv rest ih =>
    intro h hwf
    obtain ⟨k, v⟩ := kv
    have hv : v.ServiceCosts < h.length := hwf (k, v) (by simp)
    have hwf2 : ∀ kv ∈ rest,
        kv.2.ServiceCosts < (h ++ [heapGet h v.ServiceCosts]).length := by
      intro kv hkv
      have := hwf kv (by simp [hkv])
      simp only [List.length_append, List.length_cons, List.length_nil]
      omega
    have hrec := ih (h ++ [heapGet h v.ServiceCosts]) hwf2
    have hlen1 : (h ++ [heapGet h v.ServiceCosts]).length = h.length + 1 := by simp
    have hcm : copyMembers h ((k, v) :: rest) =
        ((copyMembers (h ++ [heapGet h v.ServiceCosts]) rest).1,
          (k, { MemberName := v.MemberName, ServiceCosts := h.length,
                Total := v.Total })
            :: (copyMembers (h ++ [heapGet h v.ServiceCosts]) rest).2) := by
      simp [copyMembers]
    rw [hcm]
    dsimp only
    refine ⟨?_, ?_, ?_, ?_⟩
    · have := hrec.1
      omega
    · intro i hi
      rw [hrec.2.1 i (by omega), heapGet_append_lt h _ i hi]
    · intro kv hkv
      rcases List.mem_cons.mp hkv with rfl | hkv
      · have hr1 := hrec.1
        refine ⟨?_, ?_⟩ <;> dsimp only <;> omega
      · have := hrec.2.2.1 kv hkv
        omega
    · simp only [readMembers, List.map_cons]
      refine congrArg₂ _ ?_ ?_
      · have hkeep : heapGet (copyMembers (h ++ [heapGet h v.ServiceCosts]) rest).1
            h.length = heapGet h v.ServiceCosts := by
          rw [hrec.2.1 h.length (by omega)]
          exact heapGet_append_len h _
        simp [hkeep]
      · have h1 : readMembers (copyMembers (h ++ [heapGet h v.ServiceCosts]) rest).1
            (copyMembers (h ++ [heapGet h v.ServiceCosts]) rest).2 =
            readMembers (h ++ [heapGet h v.ServiceCosts]) rest := hrec.2.2.2
        have h2 : readMembers (h ++ [heapGet h v.ServiceCosts]) rest =
            readMembers h rest := by
          refine readMembers_congr h _ rest ?_
          intro kv hkv
          exact heapGet_append_lt h _ _ (hwf kv (by simp [hkv]))
        simp only [readMembers] at h1 h2 ⊢
        rw [h1, h2]

theorem copyServices_spec : ∀ (l : List (String × ServiceCostRef)) (h : CellHeap),
    (∀ kv ∈ l, kv.2.MemberCosts < h.length) →
    (h.length ≤ (copyServices h l).1.length ∧
     (∀ i, i < h.length → heapGet (copyServices h l).1 i = heapGet h i) ∧
     (∀ kv ∈ (copyServices h l).2, h.length ≤ kv.2.MemberCosts ∧
        kv.2.MemberCosts < (copyServices h l).1.length) ∧
     readServices (copyServices h l).1 (copyServices h l).2 = readServices h l) := by
  intro l
  induction l with
  | nil =>
    intro h _
    exact ⟨le_refl _, fun i _ => rfl, by simp [copyServices],
      by simp [copyServices, readServices]⟩
  | cons kv rest ih =>
    intro h hwf
    obtain ⟨k, v⟩ := kv
    have hv : v.MemberCosts < h.length := hwf (k, v) (by simp)
    have hwf2 : ∀ kv ∈ rest,
        kv.2.MemberCosts < (h ++ [heapGet h v.MemberCosts]).length := by
      intro kv hkv
      have := hwf kv (by simp [hkv])
      simp only [List.length_append, List.length_cons, List.length_nil]
      omega
    have hrec := ih (h ++ [heapGet h v.MemberCosts]) hwf2
    have hlen1 : (h ++ [heapGet h v.MemberCosts]).length = h.length + 1 := by simp
    have hcm : copyServices h ((k, v) :: rest) =
        ((copyServices (h ++ [heapGet h v.MemberCosts]) rest).1,
          (k, { ServiceName := v.ServiceName, MemberCosts := h.length,
                Total := v.Total })
            :: (copyServices (h ++ [heapGet h v.MemberCosts]) rest).2) := by
      simp [copyServices]
    rw [hcm]
    dsimp only
    refine ⟨?_, ?_, ?_, ?_⟩
    · have := hrec.1
      omega
    · intro i hi
      rw [hrec.2.1 i (by omega), heapGet_append_lt h _ i hi]
    · intro kv hkv
      rcases List.mem_cons.mp hkv with rfl | hkv
      · have hr1 := hrec.1
        refine ⟨?_, ?_⟩ <;> dsimp only <;> omega
      · have := hrec.2.2.1 kv hkv
        omega
    · simp only [readServices, List.map_cons]
      refine congrArg₂ _ ?_ ?_
      · have hkeep : heapGet (copyServices (h ++ [heapGet h v.MemberCosts]) rest).1
            h.length = heapGet h v.MemberCosts := by
          rw [hrec.2.1 h.length (by omega)]
          exact heapGet_append_len h _
        simp [hkeep]
      · have h1 : readServices (copyServices (h ++ [heapGet h v.MemberCosts]) rest).1
            (copyServices (h ++ [heapGet h v.MemberCosts]) rest).2 =
            readServices (h ++ [heapGet h v.MemberCosts]) rest := hrec.2.2.2
        have h2 : readServices (h ++ [heapGet h v.MemberCosts]) rest =
            readServices h rest := by
          refine readServices_congr h _ rest ?_
          intro kv hkv
          exact heapGet_append_lt h _ _ (hwf kv (by simp [hkv]))
        simp only [readServices] at h1 h2 ⊢
        rw [h1, h2]

/-- C7.  `GetSummary` returns a deep, independent copy: every inner-map
reference of the copy is freshly allocated (disjoint from the store's),
the copy reads back the same content, mutating the heap through any of the
copy's references leaves everything the store can reach unchanged, and the
publication step replaces the whole {Members, Services, Refresh} triple as
one unit. -/
theorem GetSummary_deep_copy (h : CellHeap) (st : StoreSummary)
    (hwf : ∀ r ∈ summaryRefs st, r < h.length) :
    (∀ r ∈ summaryRefs (GetSummary h st).2, h.length ≤ r) ∧
    (∀ r ∈ summaryRefs (GetSummary h st).2, r ∉ summaryRefs st) ∧
    ((GetSummary h st).2.Refresh = st.Refresh ∧
      readMembers (GetSummary h st).1 (GetSummary h st).2.Members =
        readMembers h st.Members ∧
      readServices (GetSummary h st).1 (GetSummary h st).2.Services =
        readServices h st.Services) ∧
    (∀ r ∈ summaryRefs (GetSummary h st).2, ∀ v : List (String × ℚ),
      readMembers (heapSet (GetSummary h st).1 r v) st.Members =
        readMembers h st.Members ∧
      readServices (heapSet (GetSummary h st).1 r v) st.Services =
        readServices h st.Services) ∧
    (∀ (old : StoreSummary) (ms : List (String × MemberCostRef))
        (svs : List (String × ServiceCostRef)) (ts : Nat),
      (publishStore old ms svs ts).Members = ms ∧
      (publishStore old ms svs ts).Services = svs ∧
      (publishStore old ms svs ts).Refresh = ts) := by
  have hwfM : ∀ kv ∈ st.Members, kv.2.ServiceCosts < h.length := by
    intro kv hkv
    exact hwf _ (by simp [summaryRefs]; exact Or.inl ⟨kv.1, kv.2, hkv, rfl⟩)
  have hwfS : ∀ kv ∈ st.Services, kv.2.MemberCosts < h.length := by
    intro kv hkv
    exact hwf _ (by simp [summaryRefs]; exact Or.inr ⟨kv.1, kv.2, hkv, rfl⟩)
  have specM := copyMembers_spec st.Members h hwfM
  have hwfS2 : ∀ kv ∈ st.Services,
      kv.2.MemberCosts < (copyMembers h st.Members).1.length := by
    intro kv hkv
    have := hwfS kv hkv
    have := specM.1
    omega
  have specS := copyServices_spec st.Services (copyMembers h st.Members).1 hwfS2
  have hGS : GetSummary h st =
      ((copyServices (copyMembers h st.Members).1 st.Services).1,
        { Members := (copyMembers h st.Members).2,
          Services := (copyServices (copyMembers h st.Members).1 st.Services).2,
          Refresh := st.Refresh }) := rfl
  rw [hGS]
  dsimp only
  have hfresh : ∀ r ∈ summaryRefs
      { Members := (copyMembers h st.Members).2,
        Services := (copyServices (copyMembers h st.Members).1 st.Services).2,
        Refresh := st.Refresh }, h.length ≤ r := by
    intro r hr
    simp only [summaryRefs, List.mem_append, List.mem_map] at hr
    rcases hr with ⟨kv, hkv, rfl⟩ | ⟨kv, hkv, rfl⟩
    · exact (specM.2.2.1 kv hkv).1
    · have h1 := (specS.2.2.1 kv hkv).1
      have h2 := specM.1
      omega
  have hmemsEq : readMembers
      (copyServices (copyMembers h st.Members).1 st.Services).1
      (copyMembers h st.Members).2 = readMembers h st.Members := by
    have hstep : readMembers
        (copyServices (copyMembers h st.Members).1 st.Services).1
        (copyMembers h st.Members).2 =
        readMembers (copyMembers h st.Members).1 (copyMembers h st.Members).2 := by
      refine readMembers_congr _ _ _ ?_
      intro kv hkv
      exact specS.2.1 _ (specM.2.2.1 kv hkv).2
    rw [hstep, specM.2.2.2]
  refine ⟨hfresh, ?_, ⟨rfl, hmemsEq, ?_⟩, ?_, ?_⟩
  · intro r hr hmem
    have h1 := hfresh r hr
    have h2 := hwf r hmem
    omega
  · have hstep : readServices
        (copyServices (copyMembers h st.Members).1 st.Services).1
        (copyServices (copyMembers h st.Members).1 st.Services).2 =
        readServices (copyMembers h st.Members).1 st.Services := specS.2.2.2
    rw [hstep]
    refine readServices_congr _ _ _ ?_
    intro kv hkv
    exact specM.2.1 _ (hwfS kv hkv)
  · intro r hr v
    have hge := hfresh r hr
    constructor
    · refine readMembers_congr _ _ _ ?_
      intro kv hkv
      have hlt := hwfM kv hkv
      rw [heapGet_set_ne v _ r _ (by omega)]
      have hs1 : heapGet (copyServices (copyMembers h st.Members).1 st.Services).1
          kv.2.ServiceCosts = heapGet (copyMembers h st.Members).1 kv.2.ServiceCosts := by
        refine specS.2.1 _ ?_
        have := specM.1
        omega
      rw [hs1]
      exact specM.2.1 _ hlt
    · refine readServices_congr _ _ _ ?_
      intro kv hkv
      have hlt := hwfS kv hkv
      rw [heapGet_set_ne v _ r _ (by omega)]
      have hs1 : heapGet (copyServices (copyMembers h st.Members).1 st.Services).1
          kv.2.MemberCosts = heapGet (copyMembers h st.Members).1 kv.2.MemberCosts := by
        refine specS.2.1 _ ?_
        have := specM.1
        omega
      rw [hs1]
      exact specM.2.1 _ hlt
  · intro old ms svs ts
    exact ⟨rfl, rfl, rfl⟩

/-- Witness for C7 at a concrete two-cell heap and snapshot. -/
theorem GetSummary_deep_copy_witness :
    (∀ r ∈ summaryRefs st0, r < h0.length) ∧
      readMembers (GetSummary h0 st0).1 (GetSummary h0 st0).2.Members =
        readMembers h0 st0.Members := by
  have hwf : ∀ r ∈ summaryRefs st0, r < h0.length := by
    intro r hr
    simp [summaryRefs, st0, h0] at hr ⊢
    omega
  exact ⟨hwf, (GetSummary_deep_copy h0 st0 hwf).2.2.1.2.1⟩

end Collator
